import Mathlib

set_option autoImplicit false

/-
Verification development for the background report-job subsystem of
acme-accounting (src/src/reports/reports.service.ts and
src/src/reports/reports.controller.ts).

The embedding is a shallow one: the mutable service object is a value of
type ServiceState, each method becomes a state-passing function, and the
ambient sources of nondeterminism of the TypeScript code (the UUID
generator `randomUUID`, the clock `performance.now`, and the filesystem
reached by the report-logic helpers) are explicit parameters.  Times and
float metrics are modelled as exact rationals; JavaScript numbers are
IEEE doubles, but every claim under scrutiny is about the algebraic
recurrences, so exact arithmetic is the faithful reading.  The JavaScript
Map is modelled as an insertion-ordered association list, matching Map
iteration semantics.
-/

namespace Acme

/-- Report kind, the union type of reports.service.ts line 21:
accounts | yearly | fs | all. -/
inductive ReportType where
  | accounts
  | yearly
  | fs
  | all
deriving DecidableEq, Repr

/-- Concrete (non-composite) report kind, the parameter type of
processSingleReport (reports.service.ts line 256). -/
inductive ConcreteType where
  | accounts
  | yearly
  | fs
deriving DecidableEq, Repr

/-- Job status, reports.service.ts line 22. -/
inductive JobStatus where
  | pending
  | processing
  | completed
  | failed
deriving DecidableEq, Repr

/-- Rendering of a status used by the template literal in
getJobResult (reports.service.ts line 137). -/
def statusToString : JobStatus → String
  | JobStatus.pending => "pending"
  | JobStatus.processing => "processing"
  | JobStatus.completed => "completed"
  | JobStatus.failed => "failed"

/-- Timestamps of a job record (reports.service.ts lines 23-27), as
readings of the performance.now monotonic clock. -/
structure JobTimestamps where
  created : ℚ
  started : Option ℚ
  completed : Option ℚ
deriving DecidableEq, Repr

/-- Per-job metrics (reports.service.ts lines 7-17).  Of the optional
fields, only processingTime and concurrentJobs are ever consulted by the
subsystem or the claims; the memoryUsage block and filesSizes record raw
machine data and are left out of the model. -/
structure JobMetrics where
  processingTime : Option ℚ
  concurrentJobs : Option ℕ
deriving DecidableEq, Repr

/-- A job record, JobData of reports.service.ts lines 19-31. -/
structure JobData where
  jobId : String
  type : ReportType
  status : JobStatus
  timestamps : JobTimestamps
  metrics : JobMetrics
  resultPaths : List String
  errorMessage : Option String
deriving DecidableEq, Repr

/-- The nested comparison block of SystemMetrics (reports.service.ts
lines 40-44).  The source stores performanceImprovement as the string
rendering of the percentage via toFixed; the model keeps the exact
percentage value, which determines that string. -/
structure LegacyComparisonData where
  avgSyncResponseTime : ℚ
  avgAsyncResponseTime : ℚ
  performanceImprovement : ℚ
deriving DecidableEq, Repr

/-- The aggregate SystemMetrics record (reports.service.ts lines 33-45).
The legacyComparisonData field holds the CONTENT of the single nested
object the service allocates at construction; field assignments of the
source mutate that one object in place, which the model renders as
replacing this field of the live state. -/
structure SystemMetrics where
  totalJobsProcessed : ℕ
  averageResponseTime : ℚ
  averageProcessingTime : ℚ
  concurrentProcessingCapability : ℕ
  memoryEfficiency : ℚ
  successRate : ℚ
  legacyComparisonData : LegacyComparisonData
deriving DecidableEq, Repr

/-- Insertion-ordered association list standing for the JavaScript Map
from job id to record (reports.service.ts line 49). -/
abbrev JobMap : Type := List (String × JobData)

/-- Lookup, the model of Map.get (returning null as none). -/
def mapGet (m : JobMap) (k : String) : Option JobData :=
  match m.find? (fun p => decide (p.1 = k)) with
  | some p => some p.2
  | none => none

/-- Update-or-append, the model of Map.set: an existing key keeps its
position and gets the new value, a new key is appended. -/
def mapSet (m : JobMap) (k : String) (v : JobData) : JobMap :=
  if m.any (fun p => decide (p.1 = k)) then
    m.map (fun p => if p.1 = k then (k, v) else p)
  else
    m ++ [(k, v)]

/-- Values in insertion order, the model of Map.values(). -/
def values (m : JobMap) : List JobData :=
  m.map Prod.snd

/-- Whole service state: the private fields of ReportsService
(reports.service.ts lines 49-64). -/
structure ServiceState where
  jobs : JobMap
  jobQueue : List String
  isProcessing : Bool
  systemMetrics : SystemMetrics
deriving DecidableEq

/-- Initial value of the legacyComparisonData object
(reports.service.ts lines 59-63): baseline 10000 ms, async average 0,
improvement string rendering 0 percent. -/
def initialLegacy : LegacyComparisonData :=
  { avgSyncResponseTime := 10000
    avgAsyncResponseTime := 0
    performanceImprovement := 0 }

/-- Initial SystemMetrics (reports.service.ts lines 52-64). -/
def initialMetrics : SystemMetrics :=
  { totalJobsProcessed := 0
    averageResponseTime := 0
    averageProcessingTime := 0
    concurrentProcessingCapability := 0
    memoryEfficiency := 0
    successRate := 0
    legacyComparisonData := initialLegacy }

/-- Freshly constructed service (reports.service.ts lines 49-64). -/
def initialState : ServiceState :=
  { jobs := []
    jobQueue := []
    isProcessing := false
    systemMetrics := initialMetrics }

/-- Translation of updateResponseTimeMetrics (reports.service.ts lines
280-297).  Note that the divisor totalJobs is the processed-jobs counter
guarded by the JavaScript or-expression: totalJobsProcessed when it is
nonzero, else 1. -/
def updateResponseTimeMetrics (m : SystemMetrics) (responseTime : ℚ) : SystemMetrics :=
  let currentAvg := m.averageResponseTime
  let totalJobs : ℚ := if m.totalJobsProcessed = 0 then 1 else (m.totalJobsProcessed : ℚ)
  let newAvg := (currentAvg * (totalJobs - 1) + responseTime) / totalJobs
  let improvement :=
    ((m.legacyComparisonData.avgSyncResponseTime - newAvg) /
      m.legacyComparisonData.avgSyncResponseTime) * 100
  { m with
    averageResponseTime := newAvg
    legacyComparisonData :=
      { m.legacyComparisonData with
        avgAsyncResponseTime := newAvg
        performanceImprovement := improvement } }

/-- Translation of createJob (reports.service.ts lines 78-119).  The
fresh UUID, the created timestamp, and the measured accept-path latency
responseTime are the ambient inputs made explicit.  The setImmediate
scheduling of processQueue is asynchronous in the source and is modelled
by running processQueue as a separate step. -/
def createJob (s : ServiceState) (type : ReportType) (jobId : String)
    (created responseTime : ℚ) : ServiceState × String × ℚ :=
  let job : JobData :=
    { jobId := jobId
      type := type
      status := JobStatus.pending
      timestamps := { created := created, started := none, completed := none }
      metrics := { processingTime := none, concurrentJobs := some (s.jobQueue.length + 1) }
      resultPaths := []
      errorMessage := none }
  let jobs := mapSet s.jobs jobId job
  let jobQueue := s.jobQueue ++ [jobId]
  let currentJobCount := jobs.length
  let m0 :=
    { s.systemMetrics with
      concurrentProcessingCapability :=
        max s.systemMetrics.concurrentProcessingCapability currentJobCount }
  let m1 := updateResponseTimeMetrics m0 responseTime
  ({ jobs := jobs, jobQueue := jobQueue, isProcessing := s.isProcessing, systemMetrics := m1 },
    jobId, responseTime)

/-- Translation of getJobStatus (reports.service.ts lines 121-123). -/
def getJobStatus (s : ServiceState) (jobId : String) : Option JobData :=
  mapGet s.jobs jobId

/-- Payload of a successful getJobResult call: the fields assembled at
reports.service.ts lines 147-156, with results the list of file name and
file content pairs. -/
structure ResultData where
  jobId : String
  type : ReportType
  results : List (String × String)
deriving DecidableEq

/-- Shape of the getJobResult return value (reports.service.ts lines
125-129). -/
structure GetJobResultResponse where
  success : Bool
  error : Option String
  data : Option ResultData
deriving DecidableEq

/-- Final path component, the model of path.basename used at
reports.service.ts line 143. -/
def basename (p : String) : String :=
  (p.splitOn "/").getLastD p

/-- Reading of every result file in order, the loop of
reports.service.ts lines 141-145; readFile is the filesystem oracle and
the first raised error aborts the loop. -/
def readAll (readFile : String → Except String String) :
    List String → Except String (List (String × String))
  | [] => Except.ok []
  | p :: ps =>
    match readFile p with
    | Except.error e => Except.error e
    | Except.ok content =>
      match readAll readFile ps with
      | Except.error e => Except.error e
      | Except.ok rest => Except.ok ((basename p, content) :: rest)

/-- Translation of getJobResult (reports.service.ts lines 125-163). -/
def getJobResult (readFile : String → Except String String) (s : ServiceState)
    (jobId : String) : GetJobResultResponse :=
  match mapGet s.jobs jobId with
  | none => { success := false, error := some ("Job not found"), data := none }
  | some job =>
    if job.status ≠ JobStatus.completed then
      { success := false
        error := some (("Job status: ") ++ statusToString job.status)
        data := none }
    else
      match readAll readFile job.resultPaths with
      | Except.error e =>
        { success := false
          error := some (("Failed to read results: ") ++ e)
          data := none }
      | Except.ok results =>
        { success := true
          error := none
          data := some { jobId := job.jobId, type := job.type, results := results } }

/-- Outcome oracle for the report-logic helpers accountsLogic,
yearlyLogic and fsLogic (reports.service.ts lines 360-530): given the
job id and the concrete kind, either the logic returns normally or it
throws an error with the given message.  The helpers only read the tmp
directory and write the output file, so their effect on the job record
is fully captured by this outcome. -/
def GenOracle : Type := String → ConcreteType → Except String Unit

/-- Name stem of the output file of each concrete kind
(reports.service.ts lines 342, 348, 354). -/
def kindStem : ConcreteType → String
  | ConcreteType.accounts => "accounts"
  | ConcreteType.yearly => "yearly"
  | ConcreteType.fs => "fs"

/-- Output file path built by generateAccountsReport,
generateYearlyReport and generateFsReport (reports.service.ts lines
341-357): out/<stem>_<first 8 chars of the job id>.csv. -/
def outputFileFor (t : ConcreteType) (jobId : String) : String :=
  ("out/") ++ kindStem t ++ ("_") ++ (jobId.take 8) ++ (".csv")

/-- Translation of processSingleReport together with the generate*Report
method it dispatches to (reports.service.ts lines 254-278 and 341-357).
Each generate*Report method FIRST pushes the output path onto
resultPaths and only then runs the report logic, so the push survives a
failure; the returned option is the thrown error, if any. -/
def processSingleReport (gen : GenOracle) (job : JobData) (t : ConcreteType) :
    JobData × Option String :=
  let outputFile := outputFileFor t job.jobId
  let job1 := { job with resultPaths := job.resultPaths ++ [outputFile] }
  match gen job.jobId t with
  | Except.ok _ => (job1, none)
  | Except.error e => (job1, some e)

/-- Translation of processAllReports (reports.service.ts lines 248-252):
the three concrete kinds run sequentially on the shared record and the
first thrown error aborts the remaining ones. -/
def processAllReports (gen : GenOracle) (job : JobData) : JobData × Option String :=
  match processSingleReport gen job ConcreteType.accounts with
  | (job1, some e) => (job1, some e)
  | (job1, none) =>
    match processSingleReport gen job1 ConcreteType.yearly with
    | (job2, some e) => (job2, some e)
    | (job2, none) => processSingleReport gen job2 ConcreteType.fs

/-- First phase of processJob (reports.service.ts lines 214-215): the
record moves to processing and the started timestamp is stamped.  The
memoryUsage snapshot taken on the following lines records raw machine
data and is outside the model. -/
def markProcessing (job : JobData) (started : ℚ) : JobData :=
  { job with
    status := JobStatus.processing
    timestamps := { job.timestamps with started := some started } }

/-- Dispatch of processJob on the job type (reports.service.ts lines
229-233). -/
def runReports (gen : GenOracle) (job : JobData) : JobData × Option String :=
  match job.type with
  | ReportType.all => processAllReports gen job
  | ReportType.accounts => processSingleReport gen job ConcreteType.accounts
  | ReportType.yearly => processSingleReport gen job ConcreteType.yearly
  | ReportType.fs => processSingleReport gen job ConcreteType.fs

/-- Outcome phase of processJob (reports.service.ts lines 235-239): a
clean run completes the record, a thrown error marks it failed and
records the message (the error is then rethrown). -/
def applyOutcome (job : JobData) (err : Option String) : JobData :=
  match err with
  | none => { job with status := JobStatus.completed }
  | some e => { job with status := JobStatus.failed, errorMessage := some e }

/-- Translation of processJob (reports.service.ts lines 213-246):
mark processing, run the reports, apply the outcome, and in the finally
block stamp the completed time and the processing latency
completed - started.  The returned option is the rethrown error. -/
def processJob (gen : GenOracle) (job : JobData) (started finished : ℚ) :
    JobData × Option String :=
  let job0 := markProcessing job started
  let r := runReports gen job0
  let job2 := applyOutcome r.1 r.2
  let job3 :=
    { job2 with
      timestamps := { job2.timestamps with completed := some finished }
      metrics := { job2.metrics with processingTime := some (finished - started) } }
  (job3, r.2)

/-- The local completedJobs of updateSystemMetrics (reports.service.ts
lines 310-312): despite its name it holds every TERMINAL record, failed
ones included. -/
def completedJobsOf (jobs : JobMap) : List JobData :=
  (values jobs).filter
    (fun j => decide (j.status = JobStatus.completed ∨ j.status = JobStatus.failed))

/-- The local successfulJobs of updateSystemMetrics (reports.service.ts
lines 314-316): the terminal records that actually completed. -/
def successfulJobsOf (jobs : JobMap) : List JobData :=
  (completedJobsOf jobs).filter (fun j => decide (j.status = JobStatus.completed))

/-- Translation of updateSystemMetrics (reports.service.ts lines
299-328), parametrised by the jobs map the method reads through this.jobs.
The processing-time fold happens only when processingTime is truthy, so
a zero latency is skipped exactly as in the source; the success rate is
the share of completed records among terminal records of the currently
retained map, and the concurrency high-water mark folds in the current
record count. -/
def updateSystemMetrics (jobs : JobMap) (m : SystemMetrics) (job : JobData) :
    SystemMetrics :=
  let m1 := { m with totalJobsProcessed := m.totalJobsProcessed + 1 }
  let m2 :=
    match job.metrics.processingTime with
    | some pt =>
      if pt = 0 then m1
      else
        { m1 with
          averageProcessingTime :=
            (m1.averageProcessingTime * ((m1.totalJobsProcessed : ℚ) - 1) + pt) /
              (m1.totalJobsProcessed : ℚ) }
    | none => m1
  let completedJobs := completedJobsOf jobs
  let successfulJobs := successfulJobsOf jobs
  let m3 :=
    { m2 with
      successRate :=
        if 0 < completedJobs.length then
          ((successfulJobs.length : ℚ) / (completedJobs.length : ℚ)) * 100
        else 0 }
  { m3 with
    concurrentProcessingCapability :=
      max m3.concurrentProcessingCapability (values jobs).length }

/-- Deletion test of the retention sweep (reports.service.ts line 334):
the completed timestamp must be truthy (present and nonzero) and older
than the horizon. -/
def shouldDelete (job : JobData) (oneHourAgo : ℚ) : Bool :=
  match job.timestamps.completed with
  | none => false
  | some t => decide (t ≠ 0) && decide (t < oneHourAgo)

/-- Translation of cleanupOldJobs (reports.service.ts lines 330-338)
with the clock reading passed explicitly: every record whose completed
timestamp is truthy and older than now minus one hour (3600000 ms) is
deleted. -/
def cleanupOldJobs (jobs : JobMap) (now : ℚ) : JobMap :=
  jobs.filter (fun p => ! shouldDelete p.2 (now - 3600000))

/-- Clock readings consumed while one queued id is processed: the
started stamp, the finally-block stamp, the stamp of the outer catch in
processQueue (taken only when processJob rethrew), and the reading taken
by cleanupOldJobs. -/
structure IterTimes where
  started : ℚ
  finished : ℚ
  caught : ℚ
  cleanupNow : ℚ

/-- Record stored for one processed job: the processJob result, with the
outer catch of processQueue (reports.service.ts lines 200-204) re-marking
a rethrown failure and restamping its completed time. -/
def storedRecord (gen : GenOracle) (job : JobData) (t : IterTimes) : JobData :=
  let r := processJob gen job t.started t.finished
  match r.2 with
  | none => r.1
  | some e =>
    { r.1 with
      status := JobStatus.failed
      errorMessage := some e
      timestamps := { r.1.timestamps with completed := some t.caught } }

/-- Effect of one iteration of the while loop on the service state once
the dequeued record was found (reports.service.ts lines 198-207): the
record is processed and stored, the metrics update reads the map with
the record already replaced, and the retention sweep runs last. -/
def stepState (gen : GenOracle) (t : IterTimes) (s : ServiceState) (jobId : String)
    (job : JobData) : ServiceState :=
  let job2 := storedRecord gen job t
  let jobs1 := mapSet s.jobs jobId job2
  { s with
    jobs := cleanupOldJobs jobs1 t.cleanupNow
    systemMetrics := updateSystemMetrics jobs1 s.systemMetrics job2 }

/-- Body of the while loop of processQueue (reports.service.ts lines
192-208), recursing over the queued ids.  The head id is shifted off the
queue, a vanished id is skipped, a found record goes through stepState,
and the drained loop clears the isProcessing flag (line 210). -/
def processQueueAux (gen : GenOracle) (tf : String → IterTimes) :
    List String → ServiceState → ServiceState
  | [], s => { s with isProcessing := false }
  | jobId :: rest, s =>
    let s1 : ServiceState := { s with jobQueue := rest }
    match mapGet s1.jobs jobId with
    | none => processQueueAux gen tf rest s1
    | some job => processQueueAux gen tf rest (stepState gen (tf jobId) s1 jobId job)

/-- Translation of processQueue (reports.service.ts lines 185-211): the
guard returns at once when the loop is already running or the queue is
empty, otherwise the flag is raised and the queue drained. -/
def processQueue (gen : GenOracle) (tf : String → IterTimes) (s : ServiceState) :
    ServiceState :=
  if s.isProcessing || s.jobQueue.isEmpty then s
  else processQueueAux gen tf s.jobQueue { s with isProcessing := true }

/-- Result shape of getSystemMetrics (reports.service.ts lines 165-167).
The source returns the object spread of this.systemMetrics, which is a
SHALLOW copy: the six top-level numeric fields are copied by value and
appear here, while legacyComparisonData is copied as a REFERENCE to the
single live nested object of the service, so the snapshot does not carry
its content. -/
structure MetricsSnapshot where
  totalJobsProcessed : ℕ
  averageResponseTime : ℚ
  averageProcessingTime : ℚ
  concurrentProcessingCapability : ℕ
  memoryEfficiency : ℚ
  successRate : ℚ
deriving DecidableEq

/-- Translation of getSystemMetrics (reports.service.ts lines 165-167):
the shallow spread of the live aggregate. -/
def getSystemMetrics (s : ServiceState) : MetricsSnapshot :=
  { totalJobsProcessed := s.systemMetrics.totalJobsProcessed
    averageResponseTime := s.systemMetrics.averageResponseTime
    averageProcessingTime := s.systemMetrics.averageProcessingTime
    concurrentProcessingCapability := s.systemMetrics.concurrentProcessingCapability
    memoryEfficiency := s.systemMetrics.memoryEfficiency
    successRate := s.systemMetrics.successRate }

/-- Dereference of the legacyComparisonData reference held by a
snapshot.  The service allocates exactly one nested legacy object in its
lifetime and only ever mutates its fields, so the reference stored by
every shallow snapshot resolves, at any later time, to the CURRENT
content of that object inside the live state; the snapshot argument
records that the read goes through a snapshot taken earlier. -/
def MetricsSnapshot.legacyComparisonData (_snap : MetricsSnapshot)
    (live : ServiceState) : LegacyComparisonData :=
  live.systemMetrics.legacyComparisonData

/-- Valid kind strings of the submission endpoint,
Object.values(REPORT_TYPES) with REPORT_TYPES from
src/src/app.module.ts lines 56-61. -/
def validTypes : List String := [("accounts"), ("yearly"), ("fs"), ("all")]

/-- Parse of a valid kind string into the union type, combining the
membership test against validTypes and the cast at
reports.controller.ts lines 102-112: exactly the members of validTypes
parse. -/
def toReportType? (k : String) : Option ReportType :=
  if k = "accounts" then some ReportType.accounts
  else if k = "yearly" then some ReportType.yearly
  else if k = "fs" then some ReportType.fs
  else if k = "all" then some ReportType.all
  else none

/-- Translation of the POST handler createReportJob
(reports.controller.ts lines 101-113).  The optional query parameter is
an Option String; the JavaScript or-expression type-or-all maps an
absent or empty (falsy) string to the literal all.  An invalid kind
throws BadRequestException BEFORE the service is touched, so the state
comes back unchanged next to the error; a valid kind reaches
createJob. -/
def createReportJob (s : ServiceState) (type : Option String) (jobId : String)
    (created responseTime : ℚ) : ServiceState × Except String String :=
  let reportType : String :=
    match type with
    | none => "all"
    | some t => if t = "" then "all" else t
  match toReportType? reportType with
  | none =>
    (s, Except.error (("Invalid report type. Valid types: ") ++
      (String.intercalate (", ") validTypes)))
  | some rt =>
    let r := createJob s rt jobId created responseTime
    (r.1, Except.ok r.2.1)

/-- One submission request: the kind together with the ambient inputs of
createJob (fresh id, created stamp, measured accept latency). -/
structure SubmitReq where
  type : ReportType
  jobId : String
  created : ℚ
  latency : ℚ

/-- Sequence of createJob calls, used to state properties about a burst
of n submissions. -/
def submitMany (s : ServiceState) : List SubmitReq → ServiceState
  | [] => s
  | r :: rs => submitMany (createJob s r.type r.jobId r.created r.latency).1 rs

/-- Keys of the map in insertion order. -/
def keys (m : JobMap) : List String := m.map Prod.fst

/-- Key uniqueness of the map model, the invariant the JavaScript Map
maintains by construction. -/
def NoDupKeys (m : JobMap) : Prop := (keys m).Nodup

instance (m : JobMap) : Decidable (NoDupKeys m) := by
  unfold NoDupKeys
  infer_instance

theorem keys_nil : keys [] = [] := rfl

theorem keys_cons {a : String} {b : JobData} {t : JobMap} :
    keys ((a, b) :: t) = a :: keys t := rfl

theorem any_key_iff {m : JobMap} {k : String} :
    (m.any fun p => decide (p.1 = k)) = true ↔ k ∈ keys m := by
  rw [List.any_eq_true, keys, List.mem_map]
  simp only [decide_eq_true_eq]

theorem mapGet_cons {a : String} {b : JobData} {t : JobMap} {k : String} :
    mapGet ((a, b) :: t) k = if a = k then some b else mapGet t k := by
  by_cases h : a = k
  · rw [if_pos h]
    unfold mapGet
    rw [List.find?_cons_of_pos _ (by simp [h])]
  · rw [if_neg h]
    unfold mapGet
    rw [List.find?_cons_of_neg _ (by simp [h])]

theorem mapGet_eq_none_iff {m : JobMap} {k : String} :
    mapGet m k = none ↔ k ∉ keys m := by
  induction m with
  | nil => simp [mapGet, keys_nil]
  | cons a t ih =>
    obtain ⟨a1, a2⟩ := a
    rw [mapGet_cons, keys_cons]
    by_cases h : a1 = k
    · simp [h]
    · rw [if_neg h, List.mem_cons, ih]
      constructor
      · rintro hk (rfl | hm)
        · exact h rfl
        · exact hk hm
      · intro hk hm
        exact hk (Or.inr hm)

theorem mem_keys_of_mapGet {m : JobMap} {k : String} {j : JobData}
    (h : mapGet m k = some j) : k ∈ keys m := by
  by_contra hk
  rw [mapGet_eq_none_iff.mpr hk] at h
  exact Option.noConfusion h

theorem mapSet_of_mem {m : JobMap} {k : String} (v : JobData)
    (h : k ∈ keys m) :
    mapSet m k v = m.map (fun p => if p.1 = k then (k, v) else p) := by
  unfold mapSet
  rw [if_pos (any_key_iff.mpr h)]

theorem mapSet_of_not_mem {m : JobMap} {k : String} (v : JobData)
    (h : k ∉ keys m) : mapSet m k v = m ++ [(k, v)] := by
  unfold mapSet
  rw [if_neg (fun hc => h (any_key_iff.mp hc))]

theorem map_replace_of_not_mem {t : JobMap} {k : String} {v : JobData}
    (h : k ∉ keys t) :
    t.map (fun p => if p.1 = k then (k, v) else p) = t := by
  induction t with
  | nil => rfl
  | cons a t ih =>
    obtain ⟨a1, a2⟩ := a
    have hk : a1 ≠ k := by
      intro hak
      exact h (by simp [keys_cons, hak])
    have ht : k ∉ keys t := by
      intro hm
      exact h (by rw [keys_cons]; exact List.mem_cons_of_mem a1 hm)
    simp only [List.map_cons, ih ht]
    congr 1
    simp [hk]

theorem mapGet_append_right {l1 l2 : JobMap} {k : String}
    (h : k ∉ keys l1) : mapGet (l1 ++ l2) k = mapGet l2 k := by
  induction l1 with
  | nil => rfl
  | cons a t ih =>
    obtain ⟨a1, a2⟩ := a
    have hk : a1 ≠ k := by
      intro hak
      exact h (by simp [keys_cons, hak])
    have ht : k ∉ keys t := by
      intro hm
      exact h (by rw [keys_cons]; exact List.mem_cons_of_mem a1 hm)
    rw [List.cons_append, mapGet_cons, if_neg hk]
    exact ih ht

theorem mapSet_decomp {m : JobMap} {k : String} {j : JobData} (v : JobData)
    (hnd : NoDupKeys m) (hget : mapGet m k = some j) :
    ∃ l1 l2, m = l1 ++ (k, j) :: l2 ∧ mapSet m k v = l1 ++ (k, v) :: l2 ∧
      k ∉ keys l1 ∧ k ∉ keys l2 := by
  induction m with
  | nil => exact absurd hget (by simp [mapGet])
  | cons a t ih =>
    obtain ⟨a1, a2⟩ := a
    unfold NoDupKeys at hnd
    rw [keys_cons, List.nodup_cons] at hnd
    obtain ⟨hna, hnt⟩ := hnd
    by_cases hak : a1 = k
    · rw [mapGet_cons, if_pos hak] at hget
      obtain rfl : a2 = j := Option.some.inj hget
      refine ⟨[], t, by simp [← hak], ?_, by simp [keys_nil], hak ▸ hna⟩
      have hmem : k ∈ keys ((a1, a2) :: t) := by
        rw [keys_cons, ← hak]
        exact List.mem_cons_self a1 (keys t)
      rw [mapSet_of_mem v hmem, List.map_cons]
      have hhead : (if (a1, a2).1 = k then (k, v) else (a1, a2)) = (k, v) := by
        simp [hak]
      rw [hhead, map_replace_of_not_mem (hak ▸ hna)]
      simp
    · rw [mapGet_cons, if_neg hak] at hget
      obtain ⟨l1, l2, hm, hset, h1, h2⟩ := ih hnt hget
      have hkt : k ∈ keys t := mem_keys_of_mapGet hget
      refine ⟨(a1, a2) :: l1, l2, by rw [hm]; simp, ?_, ?_, h2⟩
      · have hmem : k ∈ keys ((a1, a2) :: t) := by
          rw [keys_cons]
          exact List.mem_cons_of_mem a1 hkt
        rw [mapSet_of_mem v hmem, List.map_cons]
        rw [mapSet_of_mem v hkt] at hset
        rw [hset]
        have hhead : (if (a1, a2).1 = k then (k, v) else (a1, a2)) = (a1, a2) := by
          simp [hak]
        rw [hhead, List.cons_append]
      · rw [keys_cons, List.mem_cons]
        rintro (rfl | hm)
        · exact hak rfl
        · exact h1 hm

theorem mapGet_mapSet_self {m : JobMap} {k : String} (v : JobData)
    (hnd : NoDupKeys m) : mapGet (mapSet m k v) k = some v := by
  rcases hget : mapGet m k with _ | j
  · have hk : k ∉ keys m := mapGet_eq_none_iff.mp hget
    rw [mapSet_of_not_mem v hk, mapGet_append_right hk, mapGet_cons, if_pos rfl]
  · obtain ⟨l1, l2, _, hset, h1, _⟩ := mapSet_decomp v hnd hget
    rw [hset, mapGet_append_right h1, mapGet_cons, if_pos rfl]

theorem mapGet_map_replace_ne {m : JobMap} {k q : String} {v : JobData}
    (hne : q ≠ k) :
    mapGet (m.map (fun p => if p.1 = k then (k, v) else p)) q = mapGet m q := by
  induction m with
  | nil => rfl
  | cons a t ih =>
    obtain ⟨a1, a2⟩ := a
    rw [List.map_cons]
    by_cases hak : a1 = k
    · have hhead : (if (a1, a2).1 = k then (k, v) else (a1, a2)) = (k, v) := by
        simp [hak]
      rw [hhead, mapGet_cons, mapGet_cons, if_neg (fun h => hne h.symm),
        if_neg (fun h => hne (hak ▸ h).symm)]
      exact ih
    · have hhead : (if (a1, a2).1 = k then (k, v) else (a1, a2)) = (a1, a2) := by
        simp [hak]
      rw [hhead, mapGet_cons, mapGet_cons]
      by_cases haq : a1 = q
      · rw [if_pos haq, if_pos haq]
      · rw [if_neg haq, if_neg haq]
        exact ih

theorem mapGet_mapSet_ne {m : JobMap} {k q : String} (v : JobData)
    (hne : q ≠ k) : mapGet (mapSet m k v) q = mapGet m q := by
  by_cases hmem : k ∈ keys m
  · rw [mapSet_of_mem v hmem]
    exact mapGet_map_replace_ne hne
  · rw [mapSet_of_not_mem v hmem]
    induction m with
    | nil =>
      simp [mapGet, mapGet_cons, hne.symm]
    | cons a t ih =>
      obtain ⟨a1, a2⟩ := a
      rw [List.cons_append, mapGet_cons, mapGet_cons]
      by_cases haq : a1 = q
      · rw [if_pos haq, if_pos haq]
      · rw [if_neg haq, if_neg haq]
        exact ih (fun hm => hmem (by rw [keys_cons]; exact List.mem_cons_of_mem a1 hm))

theorem keys_mapSet_present {m : JobMap} {k : String} (v : JobData)
    (hmem : k ∈ keys m) : keys (mapSet m k v) = keys m := by
  rw [mapSet_of_mem v hmem]
  unfold keys
  rw [List.map_map]
  apply List.map_congr_left
  intro p _
  by_cases h : p.1 = k <;> simp [h]

theorem nodupKeys_mapSet {m : JobMap} {k : String} (v : JobData)
    (hnd : NoDupKeys m) : NoDupKeys (mapSet m k v) := by
  by_cases hmem : k ∈ keys m
  · unfold NoDupKeys
    rw [keys_mapSet_present v hmem]
    exact hnd
  · unfold NoDupKeys
    rw [mapSet_of_not_mem v hmem]
    unfold keys
    rw [List.map_append, List.nodup_append]
    refine ⟨hnd, by simp, ?_⟩
    intro x hx
    simp only [List.map_cons, List.map_nil, List.mem_singleton]
    intro hk
    exact hmem (hk ▸ hx)

theorem nodupKeys_filter {m : JobMap} (p : String × JobData → Bool)
    (hnd : NoDupKeys m) : NoDupKeys (m.filter p) := by
  unfold NoDupKeys keys at hnd ⊢
  exact List.Nodup.sublist (List.Sublist.map Prod.fst (List.filter_sublist m)) hnd

theorem mapGet_filter {m : JobMap} {k : String} (p : String × JobData → Bool)
    (hnd : NoDupKeys m) :
    mapGet (m.filter p) k =
      match mapGet m k with
      | some v => if p (k, v) then some v else none
      | none => none := by
  rcases hget : mapGet m k with _ | v
  · have hk : k ∉ keys m := mapGet_eq_none_iff.mp hget
    rw [mapGet_eq_none_iff.mpr]
    intro hmem
    exact hk ((List.Sublist.map Prod.fst (List.filter_sublist m)).mem hmem)
  · obtain ⟨l1, l2, hm, _, h1, h2⟩ := mapSet_decomp v hnd hget
    have hf1 : k ∉ keys (l1.filter p) :=
      fun hmem => h1 ((List.Sublist.map Prod.fst (List.filter_sublist l1)).mem hmem)
    have hf2 : k ∉ keys (l2.filter p) :=
      fun hmem => h2 ((List.Sublist.map Prod.fst (List.filter_sublist l2)).mem hmem)
    rw [hm, List.filter_append, List.filter_cons]
    by_cases hp : p (k, v) = true
    · rw [if_pos hp, mapGet_append_right hf1, mapGet_cons, if_pos rfl]
      simp [hp]
    · rw [if_neg hp, mapGet_append_right hf1, mapGet_eq_none_iff.mpr hf2]
      simp [hp]

theorem mapGet_filter_none {m : JobMap} {k : String} (p : String × JobData → Bool)
    (h : mapGet m k = none) : mapGet (m.filter p) k = none := by
  rw [mapGet_eq_none_iff] at h ⊢
  exact fun hm => h ((List.Sublist.map Prod.fst (List.filter_sublist m)).mem hm)

theorem cleanup_noop {m : JobMap} {now : ℚ}
    (h : ∀ q ∈ m, shouldDelete q.2 (now - 3600000) = false) :
    cleanupOldJobs m now = m := by
  unfold cleanupOldJobs
  rw [List.filter_eq_self]
  intro a ha
  simp [h a ha]

theorem countP_values_mapSet {m : JobMap} {k : String} {j : JobData}
    (v : JobData) (p : JobData → Bool) (hnd : NoDupKeys m)
    (hget : mapGet m k = some j) :
    (values (mapSet m k v)).countP p + (if p j then 1 else 0)
      = (values m).countP p + (if p v then 1 else 0) := by
  obtain ⟨l1, l2, hm, hset, _, _⟩ := mapSet_decomp v hnd hget
  rw [hset, hm]
  simp only [values, List.map_append, List.map_cons, List.countP_append,
    List.countP_cons]
  by_cases hj : p j = true <;> by_cases hv : p v = true <;>
    simp [hj, hv] <;> omega

/-- Success of one oracle call, as a Boolean. -/
def genOk (gen : GenOracle) (id : String) (t : ConcreteType) : Bool :=
  match gen id t with
  | Except.ok _ => true
  | Except.error _ => false

/-- Success of the whole generation phase of a job: every concrete kind
the job executes returns normally. -/
def jobSucceeds (gen : GenOracle) (job : JobData) : Bool :=
  match job.type with
  | ReportType.all =>
    genOk gen job.jobId ConcreteType.accounts &&
      genOk gen job.jobId ConcreteType.yearly &&
      genOk gen job.jobId ConcreteType.fs
  | ReportType.accounts => genOk gen job.jobId ConcreteType.accounts
  | ReportType.yearly => genOk gen job.jobId ConcreteType.yearly
  | ReportType.fs => genOk gen job.jobId ConcreteType.fs

theorem processSingleReport_spec (gen : GenOracle) (job : JobData) (t : ConcreteType) :
    processSingleReport gen job t =
      ({ job with resultPaths := job.resultPaths ++ [outputFileFor t job.jobId] },
        match gen job.jobId t with
        | Except.ok _ => none
        | Except.error e => some e) := by
  unfold processSingleReport
  rcases gen job.jobId t with e | u <;> rfl

theorem runReports_preserve (gen : GenOracle) (job : JobData) :
    (runReports gen job).1.status = job.status ∧
    (runReports gen job).1.jobId = job.jobId ∧
    (runReports gen job).1.type = job.type ∧
    (runReports gen job).1.timestamps = job.timestamps ∧
    (runReports gen job).1.metrics = job.metrics ∧
    (runReports gen job).1.errorMessage = job.errorMessage := by
  obtain ⟨jid, ty, jst, jts, jme, jrp, jem⟩ := job
  cases ty with
  | all =>
    unfold runReports processAllReports
    simp only [processSingleReport_spec]
    rcases hA : gen jid ConcreteType.accounts with e | u
    · simp [hA]
    · rcases hY : gen jid ConcreteType.yearly with e | u
      · simp [hA, hY]
      · rcases hF : gen jid ConcreteType.fs with e | u <;> simp [hA, hY, hF]
  | accounts =>
    unfold runReports
    simp only [processSingleReport_spec]
    rcases hA : gen jid ConcreteType.accounts with e | u <;> simp [hA]
  | yearly =>
    unfold runReports
    simp only [processSingleReport_spec]
    rcases hY : gen jid ConcreteType.yearly with e | u <;> simp [hY]
  | fs =>
    unfold runReports
    simp only [processSingleReport_spec]
    rcases hF : gen jid ConcreteType.fs with e | u <;> simp [hF]

theorem runReports_err (gen : GenOracle) (job : JobData) :
    ((runReports gen job).2 = none) ↔ jobSucceeds gen job = true := by
  obtain ⟨jid, ty, jst, jts, jme, jrp, jem⟩ := job
  cases ty with
  | all =>
    unfold runReports processAllReports jobSucceeds genOk
    simp only [processSingleReport_spec]
    rcases hA : gen jid ConcreteType.accounts with e | u
    · simp [hA]
    · rcases hY : gen jid ConcreteType.yearly with e | u
      · simp [hA, hY]
      · rcases hF : gen jid ConcreteType.fs with e | u <;> simp [hA, hY, hF]
  | accounts =>
    unfold runReports jobSucceeds genOk
    simp only [processSingleReport_spec]
    rcases hA : gen jid ConcreteType.accounts with e | u <;> simp [hA]
  | yearly =>
    unfold runReports jobSucceeds genOk
    simp only [processSingleReport_spec]
    rcases hY : gen jid ConcreteType.yearly with e | u <;> simp [hY]
  | fs =>
    unfold runReports jobSucceeds genOk
    simp only [processSingleReport_spec]
    rcases hF : gen jid ConcreteType.fs with e | u <;> simp [hF]

theorem processJob_status (gen : GenOracle) (job : JobData) (st fin : ℚ) :
    (processJob gen job st fin).1.status =
      if jobSucceeds gen job = true then JobStatus.completed else JobStatus.failed := by
  unfold processJob applyOutcome
  have herr := runReports_err gen (markProcessing job st)
  have htype : (markProcessing job st).type = job.type := rfl
  have hid : (markProcessing job st).jobId = job.jobId := rfl
  have hsucc : jobSucceeds gen (markProcessing job st) = jobSucceeds gen job := by
    unfold jobSucceeds
    rw [htype, hid]
  rcases h : (runReports gen (markProcessing job st)).2 with _ | e
  · rw [h] at herr
    rw [hsucc] at herr
    simp [h, herr.mp rfl]
  · have hnot : ¬ jobSucceeds gen job = true := by
      rw [← hsucc]
      intro hs
      rw [herr.mpr hs] at h
      exact Option.noConfusion h
    simp [h, hnot]

theorem processJob_err_none_iff (gen : GenOracle) (job : JobData) (st fin : ℚ) :
    ((processJob gen job st fin).2 = none) ↔ jobSucceeds gen job = true := by
  unfold processJob
  have herr := runReports_err gen (markProcessing job st)
  have hsucc : jobSucceeds gen (markProcessing job st) = jobSucceeds gen job := by
    unfold jobSucceeds
    rfl
  rw [← hsucc]
  exact herr

theorem processJob_fields (gen : GenOracle) (job : JobData) (st fin : ℚ) :
    (processJob gen job st fin).1.jobId = job.jobId ∧
    (processJob gen job st fin).1.type = job.type ∧
    (processJob gen job st fin).1.timestamps.created = job.timestamps.created ∧
    (processJob gen job st fin).1.timestamps.started = some st ∧
    (processJob gen job st fin).1.timestamps.completed = some fin ∧
    (processJob gen job st fin).1.metrics.processingTime = some (fin - st) := by
  obtain ⟨_, hid, htype, hts, _, _⟩ := runReports_preserve gen (markProcessing job st)
  rcases h : (runReports gen (markProcessing job st)).2 with _ | e <;>
    simp only [processJob, applyOutcome, h, hid, htype, hts] <;>
    simp [markProcessing]

/-- Concrete job identifier used by witnesses. -/
def jid1 : String := "job-0000-0001"

/-- Second concrete job identifier used by witnesses. -/
def jid2 : String := "job-0000-0002"

/-- Concrete invalid kind string used by witnesses. -/
def badKind : String := "bogus"

/-- The empty kind string, the falsy query-parameter value. -/
def emptyKind : String := ""

/-- Oracle on which every report logic call returns normally. -/
def genAllOk : GenOracle := fun _ _ => Except.ok ()

/-- Oracle on which every report logic call throws. -/
def genAllFail : GenOracle := fun _ _ => Except.error ("boom")

/-- Oracle failing exactly for the given job id. -/
def genFailFor (bad : String) : GenOracle :=
  fun id _ => if id = bad then Except.error ("boom") else Except.ok ()

/-- Oracle failing exactly on the yearly sub-report. -/
def genYearlyFail : GenOracle :=
  fun _ t =>
    match t with
    | ConcreteType.yearly => Except.error ("boom")
    | _ => Except.ok ()

/-- Concrete clock readings used by witnesses: all small and nonnegative,
so the retention sweep deletes nothing. -/
def tf0 : String → IterTimes :=
  fun _ => { started := 1, finished := 2, caught := 3, cleanupNow := 4 }

/-- File reading oracle used by witnesses. -/
def rf0 : String → Except String String := fun _ => Except.ok ("")

theorem createJob_total (s : ServiceState) (ty : ReportType) (jobId : String)
    (created responseTime : ℚ) :
    (createJob s ty jobId created responseTime).1.systemMetrics.totalJobsProcessed
      = s.systemMetrics.totalJobsProcessed := rfl

theorem createJob_avgResponse {s : ServiceState} (ty : ReportType) (jobId : String)
    (created responseTime : ℚ) (h0 : s.systemMetrics.totalJobsProcessed = 0) :
    (createJob s ty jobId created responseTime).1.systemMetrics.averageResponseTime
      = responseTime := by
  simp only [createJob, updateResponseTimeMetrics, h0]
  norm_num

theorem getJobStatus_createJob_self {s : ServiceState} (ty : ReportType)
    (jobId : String) (created responseTime : ℚ) (hnd : NoDupKeys s.jobs) :
    getJobStatus (createJob s ty jobId created responseTime).1 jobId =
      some
        { jobId := jobId
          type := ty
          status := JobStatus.pending
          timestamps := { created := created, started := none, completed := none }
          metrics :=
            { processingTime := none, concurrentJobs := some (s.jobQueue.length + 1) }
          resultPaths := []
          errorMessage := none } := by
  simp only [getJobStatus, createJob]
  exact mapGet_mapSet_self _ hnd

/-- Claim C10: at the submission endpoint a request that omits the kind
parameter is not rejected as invalid; it is accepted and creates a job
of the composite kind all, in status pending. -/
theorem C10_omitted_kind_defaults_to_all (s : ServiceState) (jobId : String)
    (created responseTime : ℚ) (hnd : NoDupKeys s.jobs) :
    (createReportJob s none jobId created responseTime).2 = Except.ok jobId ∧
    Option.map JobData.type
        (getJobStatus (createReportJob s none jobId created responseTime).1 jobId) =
      some ReportType.all ∧
    Option.map JobData.status
        (getJobStatus (createReportJob s none jobId created responseTime).1 jobId) =
      some JobStatus.pending := by
  have hcr : createReportJob s none jobId created responseTime =
      ((createJob s ReportType.all jobId created responseTime).1, Except.ok jobId) := rfl
  rw [hcr]
  refine ⟨rfl, ?_, ?_⟩ <;>
    rw [getJobStatus_createJob_self ReportType.all jobId created responseTime hnd] <;>
    rfl

theorem C10_witness :
    NoDupKeys initialState.jobs ∧
    ((createReportJob initialState none jid1 0 1).2 = Except.ok jid1 ∧
      Option.map JobData.type
          (getJobStatus (createReportJob initialState none jid1 0 1).1 jid1) =
        some ReportType.all ∧
      Option.map JobData.status
          (getJobStatus (createReportJob initialState none jid1 0 1).1 jid1) =
        some JobStatus.pending) :=
  ⟨by decide, C10_omitted_kind_defaults_to_all initialState jid1 0 1 (by decide)⟩

/-- Claim C6 counterexample: the empty string lies outside the closed
kind set, yet a submission carrying it is NOT rejected: the falsy string
defaults to all and a job record is created, so the claim fails for this
kind string. -/
theorem C6_counterexample :
    emptyKind ∉ validTypes ∧
    (createReportJob initialState (some emptyKind) jid1 0 1).2 = Except.ok jid1 ∧
    Option.map JobData.type
        (getJobStatus (createReportJob initialState (some emptyKind) jid1 0 1).1 jid1) =
      some ReportType.all := by
  refine ⟨by decide, rfl, ?_⟩
  have hcr : createReportJob initialState (some emptyKind) jid1 0 1 =
      ((createJob initialState ReportType.all jid1 0 1).1, Except.ok jid1) := rfl
  rw [hcr]
  rw [getJobStatus_createJob_self ReportType.all jid1 0 1 (by decide)]
  rfl

/-- Claim C6 as amended: every NONEMPTY kind string outside the closed
set {accounts, yearly, fs, all} is rejected before the service is
touched: the call returns the invalid-kind error and the state comes
back exactly as it was, so no record is created, nothing is enqueued and
the metrics are untouched.  The empty string is the sole exception: it
is treated as an omitted parameter and defaults to all. -/
theorem C6_amended (s : ServiceState) (jobId : String) (created responseTime : ℚ)
    (k : String) (hk : k ∉ validTypes) (hne : k ≠ "") :
    createReportJob s (some k) jobId created responseTime =
      (s, Except.error (("Invalid report type. Valid types: ") ++
        String.intercalate (", ") validTypes)) := by
  have h1 : k ≠ "accounts" := fun h => hk (by rw [h]; simp [validTypes])
  have h2 : k ≠ "yearly" := fun h => hk (by rw [h]; simp [validTypes])
  have h3 : k ≠ "fs" := fun h => hk (by rw [h]; simp [validTypes])
  have h4 : k ≠ "all" := fun h => hk (by rw [h]; simp [validTypes])
  simp [createReportJob, toReportType?, hne, h1, h2, h3, h4]

theorem C6_witness :
    badKind ∉ validTypes ∧ badKind ≠ "" ∧
    createReportJob initialState (some badKind) jid1 0 1 =
      (initialState, Except.error (("Invalid report type. Valid types: ") ++
        String.intercalate (", ") validTypes)) :=
  ⟨by decide, by decide,
    C6_amended initialState jid1 0 1 badKind (by decide) (by decide)⟩

/-- Claim C5: fetching the result of an existing job that is not
completed fails with a message naming the current status; fetching the
result or status of an unknown identifier yields the distinct not-found
outcome, which differs from every status-naming failure message. -/
theorem C5_result_lookup (rf : String → Except String String) (s : ServiceState)
    (id : String) :
    (∀ j, getJobStatus s id = some j → j.status ≠ JobStatus.completed →
      getJobResult rf s id =
        { success := false
          error := some (("Job status: ") ++ statusToString j.status)
          data := none }) ∧
    (getJobStatus s id = none →
      getJobResult rf s id =
        { success := false, error := some ("Job not found"), data := none }) ∧
    (∀ st : JobStatus, ("Job not found" : String) ≠ ("Job status: ") ++ statusToString st) := by
  refine ⟨?_, ?_, ?_⟩
  · intro j hj hstat
    unfold getJobStatus at hj
    simp [getJobResult, hj, hstat]
  · intro hnone
    unfold getJobStatus at hnone
    simp [getJobResult, hnone]
  · intro st
    cases st <;> decide

/-- Fixed pending record used by witnesses. -/
def pendingJob1 : JobData :=
  { jobId := jid1
    type := ReportType.accounts
    status := JobStatus.pending
    timestamps := { created := 0, started := none, completed := none }
    metrics := { processingTime := none, concurrentJobs := some 1 }
    resultPaths := []
    errorMessage := none }

/-- Fixed one-pending-job state used by witnesses. -/
def stateC5 : ServiceState :=
  { jobs := [(jid1, pendingJob1)]
    jobQueue := [jid1]
    isProcessing := false
    systemMetrics := initialMetrics }

theorem C5_witness :
    getJobStatus stateC5 jid1 = some pendingJob1 ∧
    getJobResult rf0 stateC5 jid1 =
      { success := false
        error := some (("Job status: ") ++ statusToString JobStatus.pending)
        data := none } ∧
    getJobStatus stateC5 jid2 = none ∧
    getJobResult rf0 stateC5 jid2 =
      { success := false, error := some ("Job not found"), data := none } ∧
    ("Job not found" : String) ≠ ("Job status: ") ++ statusToString JobStatus.pending := by
  have h1 : getJobStatus stateC5 jid1 = some pendingJob1 := by decide
  have h2 : getJobStatus stateC5 jid2 = none := by decide
  exact ⟨h1, (C5_result_lookup rf0 stateC5 jid1).1 pendingJob1 h1 (by decide), h2,
    (C5_result_lookup rf0 stateC5 jid2).2.1 h2,
    (C5_result_lookup rf0 stateC5 jid1).2.2 JobStatus.pending⟩

/-- Claim C3 counterexample: the nested legacyComparisonData block of a
metrics snapshot does NOT keep its snapshot-time value.  The snapshot is
a shallow spread, so the block is shared with the live aggregate: after
a later createJob updates the running average, reading the block through
the snapshot taken earlier yields the updated content, different from
the content it had at snapshot time. -/
theorem C3_counterexample :
    MetricsSnapshot.legacyComparisonData (getSystemMetrics initialState)
        ((createJob initialState ReportType.accounts jid1 0 100).1) ≠
      MetricsSnapshot.legacyComparisonData (getSystemMetrics initialState)
        initialState := by
  intro h
  have h2 := congrArg LegacyComparisonData.avgAsyncResponseTime h
  simp only [MetricsSnapshot.legacyComparisonData, createJob,
    updateResponseTimeMetrics, initialState, initialMetrics, initialLegacy] at h2
  norm_num at h2

/-- Claim C3 as amended: the six top-level fields of a snapshot are
copied by value and keep their snapshot-time values, but the nested
legacyComparisonData block is copied by reference: reading it through
any snapshot always resolves to the live aggregate, so after a later
createJob the block shows the updated running average rather than the
snapshot-time one. -/
theorem C3_amended (s : ServiceState) (ty : ReportType) (jobId : String)
    (created rt : ℚ) (h0 : s.systemMetrics.totalJobsProcessed = 0) :
    (getSystemMetrics s).averageResponseTime = s.systemMetrics.averageResponseTime ∧
    (∀ live : ServiceState,
      MetricsSnapshot.legacyComparisonData (getSystemMetrics s) live =
        live.systemMetrics.legacyComparisonData) ∧
    (MetricsSnapshot.legacyComparisonData (getSystemMetrics s)
        ((createJob s ty jobId created rt).1)).avgAsyncResponseTime = rt := by
  refine ⟨rfl, fun live => rfl, ?_⟩
  simp only [MetricsSnapshot.legacyComparisonData, createJob,
    updateResponseTimeMetrics, h0]
  norm_num

theorem C3_witness :
    (getSystemMetrics initialState).averageResponseTime =
      initialState.systemMetrics.averageResponseTime ∧
    (MetricsSnapshot.legacyComparisonData (getSystemMetrics initialState)
        ((createJob initialState ReportType.accounts jid1 0 100).1)).avgAsyncResponseTime
      = 100 :=
  ⟨(C3_amended initialState ReportType.accounts jid1 0 100 rfl).1,
    (C3_amended initialState ReportType.accounts jid1 0 100 rfl).2.2⟩

/-- Claim C2 counterexample: two submissions with accept latencies 1 and
3 before any job has been processed leave the running average at 3, not
at the arithmetic mean 2: the divisor of the recurrence is the
processed-jobs counter (or 1 when it is zero), not the number of
recorded samples. -/
theorem C2_counterexample :
    ((createJob (createJob initialState ReportType.accounts jid1 0 1).1
        ReportType.accounts jid2 0 3).1).systemMetrics.averageResponseTime = 3 ∧
    ¬ ((createJob (createJob initialState ReportType.accounts jid1 0 1).1
        ReportType.accounts jid2 0 3).1).systemMetrics.averageResponseTime
      = (1 + 3) / 2 := by
  have h : ((createJob (createJob initialState ReportType.accounts jid1 0 1).1
      ReportType.accounts jid2 0 3).1).systemMetrics.averageResponseTime = 3 := by
    have h1 := createJob_avgResponse (s := initialState) ReportType.accounts jid1 0 1 rfl
    have ht := createJob_total initialState ReportType.accounts jid1 0 1
    exact createJob_avgResponse ReportType.accounts jid2 0 3 (ht.trans rfl)
  refine ⟨h, ?_⟩
  rw [h]
  norm_num

/-- Claim C2 as amended: the update divides by the processed-jobs
counter totalJobsProcessed, coerced to 1 while it is zero, rather than
by the number of latency samples recorded so far.  Consequently, as long
as no job has been fully processed every new submission overwrites the
running average: after submissions with latencies L1..Ln the stored
average equals Ln, not the arithmetic mean of L1..Ln. -/
theorem C2_amended (s : ServiceState) (rs : List SubmitReq) (r : SubmitReq)
    (h0 : s.systemMetrics.totalJobsProcessed = 0) (hlast : rs.getLast? = some r) :
    (submitMany s rs).systemMetrics.averageResponseTime = r.latency := by
  revert h0
  induction rs generalizing s with
  | nil =>
    intro h0
    simp at hlast
  | cons r0 rs ih =>
    intro h0
    cases rs with
    | nil =>
      have hr : r0 = r := by
        simpa using hlast
      subst hr
      show (submitMany (createJob s r0.type r0.jobId r0.created r0.latency).1
        []).systemMetrics.averageResponseTime = r0.latency
      unfold submitMany
      exact createJob_avgResponse r0.type r0.jobId r0.created r0.latency h0
    | cons r1 rs =>
      rw [List.getLast?_cons_cons] at hlast
      show (submitMany (createJob s r0.type r0.jobId r0.created r0.latency).1
        (r1 :: rs)).systemMetrics.averageResponseTime = r.latency
      exact ih _ hlast ((createJob_total s r0.type r0.jobId r0.created r0.latency).trans h0)

theorem C2_witness :
    initialState.systemMetrics.totalJobsProcessed = 0 ∧
    (submitMany initialState
        [{ type := ReportType.accounts, jobId := jid1, created := 0, latency := 1 },
          { type := ReportType.accounts, jobId := jid2, created := 0, latency := 3 }]
      ).systemMetrics.averageResponseTime = 3 :=
  ⟨rfl,
    C2_amended initialState
      [{ type := ReportType.accounts, jobId := jid1, created := 0, latency := 1 },
        { type := ReportType.accounts, jobId := jid2, created := 0, latency := 3 }]
      { type := ReportType.accounts, jobId := jid2, created := 0, latency := 3 }
      rfl rfl⟩

/-- Claim C1 counterexample: a single-kind job whose report generation
fails ends in status failed with ONE recorded result location, not zero:
generateAccountsReport pushes the output path BEFORE running the report
logic, so the path survives the failure.  The run starts from a pending
accounts job and drains the queue with an oracle that always throws. -/
theorem C1_counterexample :
    Option.map (fun j => (j.status, j.resultPaths))
        (getJobStatus (processQueue genAllFail tf0 stateC5) jid1) =
      some (JobStatus.failed, [outputFileFor ConcreteType.accounts jid1]) ∧
    [outputFileFor ConcreteType.accounts jid1] ≠ ([] : List String) := by
  have hne : ¬ ((3 : ℚ) < 4 - 3600000) := by norm_num
  have h3 : ((3 : ℚ) ≠ 0) := by norm_num
  constructor
  · simp [processQueue, processQueueAux, stepState, storedRecord, stateC5,
      pendingJob1, mapGet, mapSet, processJob, markProcessing, runReports,
      applyOutcome, processSingleReport_spec, genAllFail, tf0, cleanupOldJobs,
      shouldDelete, getJobStatus, hne, h3]
  · simp

/-- Claim C1 as amended: a job that completes has a non-empty
resultPaths sequence, but a single-kind job that fails during report
generation ends with exactly ONE result location rather than zero,
because each generate*Report method records the output path before
running the logic that can throw. -/
theorem C1_amended (gen : GenOracle) (job : JobData) (st fin : ℚ)
    (hempty : job.resultPaths = []) :
    ((processJob gen job st fin).1.status = JobStatus.completed →
      (processJob gen job st fin).1.resultPaths ≠ []) ∧
    ((processJob gen job st fin).1.status = JobStatus.failed →
      job.type ≠ ReportType.all →
      (processJob gen job st fin).1.resultPaths.length = 1) := by
  obtain ⟨jid, ty, jst, jts, jme, jrp, jem⟩ := job
  simp only at hempty
  subst hempty
  cases ty with
  | accounts =>
    rcases hA : gen jid ConcreteType.accounts with e | u <;>
      simp [processJob, markProcessing, runReports, applyOutcome,
        processSingleReport_spec, hA]
  | yearly =>
    rcases hY : gen jid ConcreteType.yearly with e | u <;>
      simp [processJob, markProcessing, runReports, applyOutcome,
        processSingleReport_spec, hY]
  | fs =>
    rcases hF : gen jid ConcreteType.fs with e | u <;>
      simp [processJob, markProcessing, runReports, applyOutcome,
        processSingleReport_spec, hF]
  | all =>
    rcases hA : gen jid ConcreteType.accounts with e | u
    · simp [processJob, markProcessing, runReports, processAllReports,
        applyOutcome, processSingleReport_spec, hA]
    · rcases hY : gen jid ConcreteType.yearly with e | u
      · simp [processJob, markProcessing, runReports, processAllReports,
          applyOutcome, processSingleReport_spec, hA, hY]
      · rcases hF : gen jid ConcreteType.fs with e | u <;>
          simp [processJob, markProcessing, runReports, processAllReports,
            applyOutcome, processSingleReport_spec, hA, hY, hF]

theorem C1_witness :
    pendingJob1.resultPaths = [] ∧
    ((processJob genAllFail pendingJob1 1 2).1.status = JobStatus.failed →
      pendingJob1.type ≠ ReportType.all →
      (processJob genAllFail pendingJob1 1 2).1.resultPaths.length = 1) :=
  ⟨rfl, (C1_amended genAllFail pendingJob1 1 2 rfl).2⟩

/-- Claim C7: the retention sweep deletes exactly the tracked records
whose completed timestamp is older than the one-hour horizon.  A record
with a positive completed stamp older than now minus 3600000 ms becomes
absent from subsequent status lookups; a record with a newer completed
stamp keeps its exact record; a record with no completed stamp is never
deleted. -/
theorem C7_retention (s : ServiceState) (now : ℚ) (id : String) (job : JobData)
    (hnd : NoDupKeys s.jobs) (hget : getJobStatus s id = some job) :
    (∀ t, job.timestamps.completed = some t → 0 < t → t < now - 3600000 →
      getJobStatus { s with jobs := cleanupOldJobs s.jobs now } id = none) ∧
    (∀ t, job.timestamps.completed = some t → ¬ t < now - 3600000 →
      getJobStatus { s with jobs := cleanupOldJobs s.jobs now } id = some job) ∧
    (job.timestamps.completed = none →
      getJobStatus { s with jobs := cleanupOldJobs s.jobs now } id = some job) := by
  unfold getJobStatus at hget ⊢
  have hf := mapGet_filter (m := s.jobs) (k := id)
    (fun p => ! shouldDelete p.2 (now - 3600000)) hnd
  rw [hget] at hf
  refine ⟨?_, ?_, ?_⟩
  · intro t hct hpos hold
    have hsd : shouldDelete job (now - 3600000) = true := by
      simp [shouldDelete, hct, hpos.ne', hold]
    show mapGet (cleanupOldJobs s.jobs now) id = none
    unfold cleanupOldJobs
    rw [hf]
    simp [hsd]
  · intro t hct hnew
    have hsd : shouldDelete job (now - 3600000) = false := by
      simp [shouldDelete, hct, hnew]
    show mapGet (cleanupOldJobs s.jobs now) id = some job
    unfold cleanupOldJobs
    rw [hf]
    simp [hsd]
  · intro hnone
    have hsd : shouldDelete job (now - 3600000) = false := by
      simp [shouldDelete, hnone]
    show mapGet (cleanupOldJobs s.jobs now) id = some job
    unfold cleanupOldJobs
    rw [hf]
    simp [hsd]

/-- Third concrete job identifier used by witnesses. -/
def jid3 : String := "job-0000-0003"

/-- Old completed record: its completed stamp is far beyond the
retention horizon. -/
def oldJob : JobData :=
  { jobId := jid1
    type := ReportType.accounts
    status := JobStatus.completed
    timestamps := { created := 0, started := some 1, completed := some 100 }
    metrics := { processingTime := some 99, concurrentJobs := some 1 }
    resultPaths := [outputFileFor ConcreteType.accounts jid1]
    errorMessage := none }

/-- Recent completed record: within the retention horizon. -/
def freshJob : JobData :=
  { jobId := jid2
    type := ReportType.accounts
    status := JobStatus.completed
    timestamps := { created := 0, started := some 1, completed := some 3999999 }
    metrics := { processingTime := some 10, concurrentJobs := some 1 }
    resultPaths := [outputFileFor ConcreteType.accounts jid2]
    errorMessage := none }

/-- Stuck record: no completed stamp at all. -/
def stuckJob : JobData :=
  { jobId := jid3
    type := ReportType.accounts
    status := JobStatus.processing
    timestamps := { created := 0, started := some 1, completed := none }
    metrics := { processingTime := none, concurrentJobs := some 1 }
    resultPaths := []
    errorMessage := none }

/-- State holding the three retention test records. -/
def stateC7 : ServiceState :=
  { jobs := [(jid1, oldJob), (jid2, freshJob), (jid3, stuckJob)]
    jobQueue := []
    isProcessing := false
    systemMetrics := initialMetrics }

theorem C7_witness :
    getJobStatus { stateC7 with jobs := cleanupOldJobs stateC7.jobs 4000000 } jid1 = none ∧
    getJobStatus { stateC7 with jobs := cleanupOldJobs stateC7.jobs 4000000 } jid2 =
      some freshJob ∧
    getJobStatus { stateC7 with jobs := cleanupOldJobs stateC7.jobs 4000000 } jid3 =
      some stuckJob :=
  ⟨(C7_retention stateC7 4000000 jid1 oldJob (by decide) (by decide)).1 100 rfl
      (by norm_num) (by norm_num),
    (C7_retention stateC7 4000000 jid2 freshJob (by decide) (by decide)).2.1 3999999 rfl
      (by norm_num),
    (C7_retention stateC7 4000000 jid3 stuckJob (by decide) (by decide)).2.2 rfl⟩

/-- Claim C8: a job of the composite kind all runs accounts, yearly and
fs sequentially on the one shared record.  When all three succeed the
record completes with exactly the three result locations in that order
and one processingLatency spanning the whole run; when the yearly
sub-execution throws, the fs sub-execution is not run (no fs path is
recorded), and the record is marked failed with the triggering message
as its error detail. -/
theorem C8_all_sequence (job : JobData) (st fin : ℚ)
    (htype : job.type = ReportType.all) (hempty : job.resultPaths = []) :
    (∀ gen : GenOracle,
      genOk gen job.jobId ConcreteType.accounts = true →
      genOk gen job.jobId ConcreteType.yearly = true →
      genOk gen job.jobId ConcreteType.fs = true →
      (processJob gen job st fin).1.status = JobStatus.completed ∧
      (processJob gen job st fin).1.resultPaths =
        [outputFileFor ConcreteType.accounts job.jobId,
          outputFileFor ConcreteType.yearly job.jobId,
          outputFileFor ConcreteType.fs job.jobId] ∧
      (processJob gen job st fin).1.metrics.processingTime = some (fin - st)) ∧
    (∀ (gen : GenOracle) (e : String),
      genOk gen job.jobId ConcreteType.accounts = true →
      gen job.jobId ConcreteType.yearly = Except.error e →
      (processJob gen job st fin).1.status = JobStatus.failed ∧
      (processJob gen job st fin).1.errorMessage = some e ∧
      (processJob gen job st fin).1.resultPaths =
        [outputFileFor ConcreteType.accounts job.jobId,
          outputFileFor ConcreteType.yearly job.jobId]) := by
  obtain ⟨jid, ty, jst, jts, jme, jrp, jem⟩ := job
  simp only at htype hempty
  subst htype
  subst hempty
  constructor
  · intro gen hA hY hF
    rcases hgA : gen jid ConcreteType.accounts with eA | uA
    · rw [genOk, hgA] at hA
      exact absurd hA (by simp)
    · rcases hgY : gen jid ConcreteType.yearly with eY | uY
      · rw [genOk, hgY] at hY
        exact absurd hY (by simp)
      · rcases hgF : gen jid ConcreteType.fs with eF | uF
        · rw [genOk, hgF] at hF
          exact absurd hF (by simp)
        · simp [processJob, markProcessing, runReports, processAllReports,
            applyOutcome, processSingleReport_spec, hgA, hgY, hgF]
  · intro gen e hA hY
    rcases hgA : gen jid ConcreteType.accounts with eA | uA
    · rw [genOk, hgA] at hA
      exact absurd hA (by simp)
    · simp [processJob, markProcessing, runReports, processAllReports,
        applyOutcome, processSingleReport_spec, hgA, hY]

/-- Fixed pending record of the composite kind all, used by witnesses. -/
def allJob1 : JobData :=
  { jobId := jid1
    type := ReportType.all
    status := JobStatus.pending
    timestamps := { created := 0, started := none, completed := none }
    metrics := { processingTime := none, concurrentJobs := some 1 }
    resultPaths := []
    errorMessage := none }

theorem C8_witness :
    allJob1.type = ReportType.all ∧ allJob1.resultPaths = [] ∧
    ((processJob genAllOk allJob1 1 2).1.status = JobStatus.completed ∧
      (processJob genAllOk allJob1 1 2).1.resultPaths =
        [outputFileFor ConcreteType.accounts allJob1.jobId,
          outputFileFor ConcreteType.yearly allJob1.jobId,
          outputFileFor ConcreteType.fs allJob1.jobId] ∧
      (processJob genAllOk allJob1 1 2).1.metrics.processingTime = some (2 - 1)) ∧
    ((processJob genYearlyFail allJob1 1 2).1.status = JobStatus.failed ∧
      (processJob genYearlyFail allJob1 1 2).1.errorMessage = some ("boom") ∧
      (processJob genYearlyFail allJob1 1 2).1.resultPaths =
        [outputFileFor ConcreteType.accounts allJob1.jobId,
          outputFileFor ConcreteType.yearly allJob1.jobId]) :=
  ⟨rfl, rfl,
    (C8_all_sequence allJob1 1 2 rfl rfl).1 genAllOk rfl rfl rfl,
    (C8_all_sequence allJob1 1 2 rfl rfl).2 genYearlyFail ("boom") rfl rfl⟩

theorem processQueueAux_nil (gen : GenOracle) (tf : String → IterTimes)
    (s : ServiceState) :
    processQueueAux gen tf [] s = { s with isProcessing := false } := rfl

theorem processQueueAux_cons_none (gen : GenOracle) (tf : String → IterTimes)
    {s : ServiceState} {jobId : String} (rest : List String)
    (hfind : mapGet s.jobs jobId = none) :
    processQueueAux gen tf (jobId :: rest) s =
      processQueueAux gen tf rest { s with jobQueue := rest } := by
  simp only [processQueueAux]
  rw [show mapGet ({ s with jobQueue := rest } : ServiceState).jobs jobId = none
    from hfind]

theorem processQueueAux_cons_some (gen : GenOracle) (tf : String → IterTimes)
    {s : ServiceState} {jobId : String} {job : JobData} (rest : List String)
    (hfind : mapGet s.jobs jobId = some job) :
    processQueueAux gen tf (jobId :: rest) s =
      processQueueAux gen tf rest
        (stepState gen (tf jobId) { s with jobQueue := rest } jobId job) := by
  simp only [processQueueAux]
  rw [show mapGet ({ s with jobQueue := rest } : ServiceState).jobs jobId = some job
    from hfind]

theorem stepState_jobs (gen : GenOracle) (t : IterTimes) (s : ServiceState)
    (jobId : String) (job : JobData) :
    (stepState gen t s jobId job).jobs =
      cleanupOldJobs (mapSet s.jobs jobId (storedRecord gen job t)) t.cleanupNow := rfl

theorem stepState_metrics (gen : GenOracle) (t : IterTimes) (s : ServiceState)
    (jobId : String) (job : JobData) :
    (stepState gen t s jobId job).systemMetrics =
      updateSystemMetrics (mapSet s.jobs jobId (storedRecord gen job t))
        s.systemMetrics (storedRecord gen job t) := rfl

theorem storedRecord_status (gen : GenOracle) (job : JobData) (t : IterTimes) :
    (storedRecord gen job t).status =
      if jobSucceeds gen job = true then JobStatus.completed else JobStatus.failed := by
  unfold storedRecord
  rcases h : (processJob gen job t.started t.finished).2 with _ | e
  · simp only [h]
    exact processJob_status gen job t.started t.finished
  · have hsf : jobSucceeds gen job = false := by
      rcases hb : jobSucceeds gen job
      · rfl
      · have hnone := (processJob_err_none_iff gen job t.started t.finished).mpr hb
        rw [hnone] at h
        exact Option.noConfusion h
    simp only [h]
    simp [hsf]

theorem storedRecord_completed (gen : GenOracle) (job : JobData) (t : IterTimes) :
    (storedRecord gen job t).timestamps.completed = some t.finished ∨
    (storedRecord gen job t).timestamps.completed = some t.caught := by
  unfold storedRecord
  rcases h : (processJob gen job t.started t.finished).2 with _ | e
  · left
    simp only [h]
    exact (processJob_fields gen job t.started t.finished).2.2.2.2.1
  · right
    simp only [h]

theorem processQueueAux_absent (gen : GenOracle) (tf : String → IterTimes) :
    ∀ (q : List String) (s : ServiceState) (id : String),
    mapGet s.jobs id = none →
    mapGet (processQueueAux gen tf q s).jobs id = none := by
  intro q
  induction q with
  | nil =>
    intro s id h
    rw [processQueueAux_nil]
    exact h
  | cons jobId rest ih =>
    intro s id h
    rcases hfind : mapGet s.jobs jobId with _ | job
    · rw [processQueueAux_cons_none gen tf rest hfind]
      exact ih _ id h
    · rw [processQueueAux_cons_some gen tf rest hfind]
      apply ih
      rw [stepState_jobs]
      unfold cleanupOldJobs
      apply mapGet_filter_none
      have hne : id ≠ jobId := by
        intro he
        rw [he, hfind] at h
        exact Option.noConfusion h
      rw [mapGet_mapSet_ne _ hne]
      exact h

theorem processQueueAux_stable (gen : GenOracle) (tf : String → IterTimes) :
    ∀ (q : List String) (s : ServiceState) (id : String) (j : JobData),
    NoDupKeys s.jobs → id ∉ q → mapGet s.jobs id = some j →
    ∀ j2, mapGet (processQueueAux gen tf q s).jobs id = some j2 → j2 = j := by
  intro q
  induction q with
  | nil =>
    intro s id j _ _ hget j2 h2
    rw [processQueueAux_nil] at h2
    rw [show mapGet ({ s with isProcessing := false } : ServiceState).jobs id =
      some j from hget] at h2
    exact (Option.some.inj h2).symm
  | cons jobId rest ih =>
    intro s id j hnd hniq hget j2 h2
    have hne : id ≠ jobId := fun he => hniq (he ▸ List.mem_cons_self _ _)
    have hnrest : id ∉ rest := fun hm => hniq (List.mem_cons_of_mem _ hm)
    rcases hfind : mapGet s.jobs jobId with _ | job
    · rw [processQueueAux_cons_none gen tf rest hfind] at h2
      exact ih { s with jobQueue := rest } id j hnd hnrest hget j2 h2
    · rw [processQueueAux_cons_some gen tf rest hfind] at h2
      set s2 := stepState gen (tf jobId) { s with jobQueue := rest } jobId job with hs2
      have hnd1 : NoDupKeys (mapSet s.jobs jobId (storedRecord gen job (tf jobId))) :=
        nodupKeys_mapSet _ hnd
      have hget1 : mapGet (mapSet s.jobs jobId (storedRecord gen job (tf jobId))) id
          = some j := by
        rw [mapGet_mapSet_ne _ hne]
        exact hget
      have hchar := mapGet_filter (m := mapSet s.jobs jobId (storedRecord gen job (tf jobId)))
        (k := id)
        (fun p => ! shouldDelete p.2 ((tf jobId).cleanupNow - 3600000)) hnd1
      rw [hget1] at hchar
      by_cases hp : (! shouldDelete j ((tf jobId).cleanupNow - 3600000)) = true
      · have hget2 : mapGet s2.jobs id = some j := by
          rw [hs2, stepState_jobs]
          unfold cleanupOldJobs
          rw [hchar]
          simp [hp]
        have hnd2 : NoDupKeys s2.jobs := by
          rw [hs2, stepState_jobs]
          exact nodupKeys_filter _ hnd1
        exact ih s2 id j hnd2 hnrest hget2 j2 h2
      · have hget2 : mapGet s2.jobs id = none := by
          rw [hs2, stepState_jobs]
          unfold cleanupOldJobs
          rw [hchar]
          simp only [hp]
          simp at hp
          simp [hp]
        rw [processQueueAux_absent gen tf rest s2 id hget2] at h2
        exact absurd h2 (by simp)

/-- Allowed transitions of the job state machine of the specification:
pending to processing, processing to completed, processing to failed. -/
inductive StatusStep : JobStatus → JobStatus → Prop where
  | toProcessing : StatusStep JobStatus.pending JobStatus.processing
  | toCompleted : StatusStep JobStatus.processing JobStatus.completed
  | toFailed : StatusStep JobStatus.processing JobStatus.failed

/-- Claim C4: the status of every job follows the state machine
pending, processing, then completed or failed.  A created record starts
pending; processJob moves a pending record through processing (stamping
started) and only then to a terminal status, so no step reaches a
terminal status from pending directly; the terminal status reached is
completed or failed; a createJob for another id leaves existing records
untouched; and once a record is terminal, draining the queue never
changes its status again as long as the record survives (every queued id
maps to a pending record or to nothing, so the terminal record is never
reprocessed). -/
theorem C4_state_machine :
    (∀ (s : ServiceState) (ty : ReportType) (id : String) (c rt : ℚ),
      NoDupKeys s.jobs →
      Option.map JobData.status (getJobStatus (createJob s ty id c rt).1 id) =
        some JobStatus.pending) ∧
    (∀ (gen : GenOracle) (job : JobData) (st fin : ℚ),
      job.status = JobStatus.pending →
      List.Chain' StatusStep
        [job.status, (markProcessing job st).status,
          (processJob gen job st fin).1.status]) ∧
    (∀ (gen : GenOracle) (job : JobData) (st fin : ℚ),
      (processJob gen job st fin).1.status = JobStatus.completed ∨
      (processJob gen job st fin).1.status = JobStatus.failed) ∧
    (∀ (s : ServiceState) (ty : ReportType) (nid : String) (c rt : ℚ) (id : String),
      id ≠ nid →
      mapGet (createJob s ty nid c rt).1.jobs id = mapGet s.jobs id) ∧
    (∀ (gen : GenOracle) (tf : String → IterTimes) (s : ServiceState)
        (id : String) (j : JobData),
      NoDupKeys s.jobs →
      (∀ qid ∈ s.jobQueue,
        Option.map JobData.status (mapGet s.jobs qid) = some JobStatus.pending ∨
          mapGet s.jobs qid = none) →
      mapGet s.jobs id = some j →
      (j.status = JobStatus.completed ∨ j.status = JobStatus.failed) →
      ∀ j2, mapGet (processQueue gen tf s).jobs id = some j2 →
        j2.status = j.status) := by
  refine ⟨?_, ?_, ?_, ?_, ?_⟩
  · intro s ty id c rt hnd
    rw [getJobStatus_createJob_self ty id c rt hnd]
    rfl
  · intro gen job st fin hpend
    have h1 : (markProcessing job st).status = JobStatus.processing := rfl
    rw [List.chain'_cons, List.chain'_cons]
    refine ⟨?_, ?_, List.chain'_singleton _⟩
    · rw [hpend, h1]
      exact StatusStep.toProcessing
    · rw [h1, processJob_status]
      by_cases hs : jobSucceeds gen job = true
      · rw [if_pos hs]
        exact StatusStep.toCompleted
      · rw [if_neg hs]
        exact StatusStep.toFailed
  · intro gen job st fin
    rw [processJob_status]
    by_cases hs : jobSucceeds gen job = true
    · left
      rw [if_pos hs]
    · right
      rw [if_neg hs]
  · intro s ty nid c rt id hne
    simp only [createJob]
    exact mapGet_mapSet_ne _ hne
  · intro gen tf s id j hnd hq hget hterm j2 h2
    unfold processQueue at h2
    by_cases hguard : (s.isProcessing || s.jobQueue.isEmpty) = true
    · rw [if_pos hguard, hget] at h2
      rw [(Option.some.inj h2).symm]
    · rw [if_neg hguard] at h2
      have hniq : id ∉ s.jobQueue := by
        intro hm
        rcases hq id hm with hp | hn
        · rw [hget] at hp
          have : j.status = JobStatus.pending := by
            simpa using hp
          rcases hterm with ht | ht <;> rw [ht] at this <;> exact JobStatus.noConfusion this
        · rw [hget] at hn
          exact Option.noConfusion hn
      have := processQueueAux_stable gen tf s.jobQueue
        { s with isProcessing := true } id j hnd hniq hget j2 h2
      rw [this]

/-- Second fixed pending record, used by witnesses. -/
def pendingJob2 : JobData :=
  { jobId := jid2
    type := ReportType.accounts
    status := JobStatus.pending
    timestamps := { created := 0, started := none, completed := none }
    metrics := { processingTime := none, concurrentJobs := some 1 }
    resultPaths := []
    errorMessage := none }

/-- State holding one terminal record and one queued pending record. -/
def stateC4 : ServiceState :=
  { jobs := [(jid1, oldJob), (jid2, pendingJob2)]
    jobQueue := [jid2]
    isProcessing := false
    systemMetrics := initialMetrics }

theorem C4_witness :
    Option.map JobData.status
        (getJobStatus (createJob initialState ReportType.accounts jid1 0 1).1 jid1) =
      some JobStatus.pending ∧
    List.Chain' StatusStep
      [pendingJob1.status, (markProcessing pendingJob1 1).status,
        (processJob genAllOk pendingJob1 1 2).1.status] ∧
    ((processJob genAllOk pendingJob1 1 2).1.status = JobStatus.completed ∨
      (processJob genAllOk pendingJob1 1 2).1.status = JobStatus.failed) ∧
    mapGet (createJob initialState ReportType.accounts jid1 0 1).1.jobs jid2 =
      mapGet initialState.jobs jid2 ∧
    (∀ j2, mapGet (processQueue genAllOk tf0 stateC4).jobs jid1 = some j2 →
      j2.status = oldJob.status) := by
  refine ⟨C4_state_machine.1 initialState ReportType.accounts jid1 0 1 (by decide),
    C4_state_machine.2.1 genAllOk pendingJob1 1 2 rfl,
    C4_state_machine.2.2.1 genAllOk pendingJob1 1 2,
    C4_state_machine.2.2.2.1 initialState ReportType.accounts jid1 0 1 jid2 (by decide),
    C4_state_machine.2.2.2.2 genAllOk tf0 stateC4 jid1 oldJob (by decide) ?_ (by decide)
      (Or.inl rfl)⟩
  intro qid hqm
  left
  have : qid = jid2 := List.mem_singleton.mp hqm
  rw [this]
  decide

/-- Success of the generation phase of the record currently registered
under an id. -/
def succeedsIn (gen : GenOracle) (jobs : JobMap) (id : String) : Bool :=
  match mapGet jobs id with
  | some j => jobSucceeds gen j
  | none => false

/-- Every completed stamp in the map is a nonnegative clock reading, as
produced by performance.now. -/
def stampsSafe (jobs : JobMap) : Prop :=
  ∀ p ∈ jobs, ∀ t : ℚ, p.2.timestamps.completed = some t → 0 ≤ t

/-- Clock readings early enough that the one-hour retention horizon lies
before time zero, so the sweep deletes nothing during the run. -/
def timesSafe (t : IterTimes) : Prop :=
  0 ≤ t.finished ∧ 0 ≤ t.caught ∧ t.cleanupNow ≤ 3600000

theorem mem_mapSet {m : JobMap} {k : String} {j : JobData} (v : JobData)
    (hnd : NoDupKeys m) (hget : mapGet m k = some j) :
    ∀ p ∈ mapSet m k v, p ∈ m ∨ p = (k, v) := by
  obtain ⟨l1, l2, hm, hset, _, _⟩ := mapSet_decomp v hnd hget
  intro p hp
  rw [hset] at hp
  rcases List.mem_append.mp hp with h1 | h2
  · left
    rw [hm]
    exact List.mem_append.mpr (Or.inl h1)
  · rcases List.mem_cons.mp h2 with he | h3
    · right
      exact he
    · left
      rw [hm]
      exact List.mem_append.mpr (Or.inr (List.mem_cons_of_mem _ h3))

theorem cleanup_noop_of_safe {jobs : JobMap} {now : ℚ} (h : stampsSafe jobs)
    (hn : now ≤ 3600000) : cleanupOldJobs jobs now = jobs := by
  apply cleanup_noop
  intro q hq
  rcases hc : q.2.timestamps.completed with _ | t
  · simp [shouldDelete, hc]
  · have ht := h q hq t hc
    have hnot : ¬ (t < now - 3600000) := by
      intro hlt
      linarith
    simp [shouldDelete, hc, hnot]

theorem stampsSafe_mapSet {jobs : JobMap} {k : String} {j : JobData} (v : JobData)
    (hnd : NoDupKeys jobs) (hget : mapGet jobs k = some j) (hs : stampsSafe jobs)
    (hv : ∀ t : ℚ, v.timestamps.completed = some t → 0 ≤ t) :
    stampsSafe (mapSet jobs k v) := by
  intro p hp t ht
  rcases mem_mapSet v hnd hget p hp with hin | he
  · exact hs p hin t ht
  · rw [he] at ht
    exact hv t ht

theorem completedJobsOf_length (jobs : JobMap) :
    (completedJobsOf jobs).length =
      (values jobs).countP
        (fun j => decide (j.status = JobStatus.completed ∨ j.status = JobStatus.failed)) := by
  unfold completedJobsOf
  rw [← List.countP_eq_length_filter]

theorem successfulJobsOf_length (jobs : JobMap) :
    (successfulJobsOf jobs).length =
      (values jobs).countP (fun j => decide (j.status = JobStatus.completed)) := by
  unfold successfulJobsOf completedJobsOf
  rw [← List.countP_eq_length_filter, List.countP_filter]
  apply List.countP_congr
  intro j _
  cases hjs : j.status <;> simp [hjs]

theorem updateSystemMetrics_successRate (jobs : JobMap) (m : SystemMetrics)
    (job : JobData) :
    (updateSystemMetrics jobs m job).successRate =
      if 0 < (completedJobsOf jobs).length then
        ((successfulJobsOf jobs).length : ℚ) / ((completedJobsOf jobs).length : ℚ) * 100
      else 0 := by
  unfold updateSystemMetrics
  rcases h : job.metrics.processingTime with _ | pt
  · simp only [h]
  · by_cases hpt : pt = 0 <;> simp [h, hpt]

theorem succeedsIn_congr {gen : GenOracle} {jobs jobs2 : JobMap} {id : String}
    (h : mapGet jobs2 id = mapGet jobs id) :
    succeedsIn gen jobs2 id = succeedsIn gen jobs id := by
  unfold succeedsIn
  rw [h]

theorem processQueueAux_successRate (gen : GenOracle) (tf : String → IterTimes)
    (htf : ∀ id, timesSafe (tf id)) :
    ∀ (q : List String) (s : ServiceState),
    q ≠ [] →
    NoDupKeys s.jobs →
    q.Nodup →
    (∀ id ∈ q, Option.map JobData.status (mapGet s.jobs id) = some JobStatus.pending) →
    stampsSafe s.jobs →
    (processQueueAux gen tf q s).systemMetrics.successRate =
      (((successfulJobsOf s.jobs).length + q.countP (succeedsIn gen s.jobs) : ℕ) : ℚ) /
        (((completedJobsOf s.jobs).length + q.length : ℕ) : ℚ) * 100 := by
  intro q
  induction q with
  | nil =>
    intro s hne
    exact absurd rfl hne
  | cons id rest ih =>
    intro s _ hnd hqnd hpend hsafe
    have hhead := hpend id (List.mem_cons_self _ _)
    rcases hfind : mapGet s.jobs id with _ | j
    · rw [hfind] at hhead
      exact absurd hhead (by simp)
    rw [hfind] at hhead
    have hjp : j.status = JobStatus.pending := by
      simpa using hhead
    have hidrest : id ∉ rest := (List.nodup_cons.mp hqnd).1
    have hrestnd : rest.Nodup := (List.nodup_cons.mp hqnd).2
    rw [processQueueAux_cons_some gen tf rest hfind]
    have hts := htf id
    have hv : ∀ tt : ℚ, (storedRecord gen j (tf id)).timestamps.completed = some tt →
        0 ≤ tt := by
      intro tt htt
      rcases storedRecord_completed gen j (tf id) with hc | hc <;> rw [hc] at htt
      · injection htt with he
        rw [← he]
        exact hts.1
      · injection htt with he
        rw [← he]
        exact hts.2.1
    have hsafe1 : stampsSafe (mapSet s.jobs id (storedRecord gen j (tf id))) :=
      stampsSafe_mapSet _ hnd hfind hsafe hv
    have hclean : cleanupOldJobs (mapSet s.jobs id (storedRecord gen j (tf id)))
        (tf id).cleanupNow = mapSet s.jobs id (storedRecord gen j (tf id)) :=
      cleanup_noop_of_safe hsafe1 hts.2.2
    have hnd1 : NoDupKeys (mapSet s.jobs id (storedRecord gen j (tf id))) :=
      nodupKeys_mapSet _ hnd
    have hstat2 := storedRecord_status gen j (tf id)
    have hb2 : (decide ((storedRecord gen j (tf id)).status = JobStatus.completed ∨
        (storedRecord gen j (tf id)).status = JobStatus.failed)) = true := by
      rw [hstat2]
      by_cases hs : jobSucceeds gen j = true <;> simp [hs]
    have hbj : (decide (j.status = JobStatus.completed ∨ j.status = JobStatus.failed))
        = false := by
      simp [hjp]
    have hbs2 : (decide ((storedRecord gen j (tf id)).status = JobStatus.completed))
        = jobSucceeds gen j := by
      rw [hstat2]
      by_cases hs : jobSucceeds gen j = true <;> simp [hs]
    have hbsj : (decide (j.status = JobStatus.completed)) = false := by
      simp [hjp]
    have hcT := countP_values_mapSet (m := s.jobs) (storedRecord gen j (tf id))
      (fun jj => decide (jj.status = JobStatus.completed ∨ jj.status = JobStatus.failed))
      hnd hfind
    simp only [hbj, hb2, if_true, if_false, Bool.false_eq_true] at hcT
    have hcS := countP_values_mapSet (m := s.jobs) (storedRecord gen j (tf id))
      (fun jj => decide (jj.status = JobStatus.completed)) hnd hfind
    simp only [hbsj, hbs2, Bool.false_eq_true, if_false] at hcS
    have hT1 : (completedJobsOf (mapSet s.jobs id (storedRecord gen j (tf id)))).length =
        (completedJobsOf s.jobs).length + 1 := by
      rw [completedJobsOf_length, completedJobsOf_length]
      omega
    have hS1 : (successfulJobsOf (mapSet s.jobs id (storedRecord gen j (tf id)))).length =
        (successfulJobsOf s.jobs).length + (if jobSucceeds gen j = true then 1 else 0) := by
      rw [successfulJobsOf_length, successfulJobsOf_length]
      omega
    have hjobs : (stepState gen (tf id) { s with jobQueue := rest } id j).jobs =
        mapSet s.jobs id (storedRecord gen j (tf id)) := by
      rw [stepState_jobs]
      exact hclean
    have hδ : succeedsIn gen s.jobs id = jobSucceeds gen j := by
      unfold succeedsIn
      rw [hfind]
    cases rest with
    | nil =>
      rw [processQueueAux_nil]
      show (updateSystemMetrics (mapSet s.jobs id (storedRecord gen j (tf id)))
        s.systemMetrics (storedRecord gen j (tf id))).successRate = _
      rw [updateSystemMetrics_successRate, hT1, hS1,
        if_pos (by omega : 0 < (completedJobsOf s.jobs).length + 1)]
      have hcount1 : ([id].countP (succeedsIn gen s.jobs)) =
          if jobSucceeds gen j = true then 1 else 0 := by
        rw [List.countP_cons, List.countP_nil, hδ]
        omega
      rw [hcount1]
      norm_num
    | cons r1 rs =>
      have hne2 : (r1 :: rs) ≠ [] := by simp
      have hrec := ih (stepState gen (tf id) { s with jobQueue := r1 :: rs } id j) hne2
        (by rw [hjobs]; exact hnd1) hrestnd ?_ ?_
      · rw [hrec, hjobs]
        have hcp : (r1 :: rs).countP
            (succeedsIn gen (mapSet s.jobs id (storedRecord gen j (tf id)))) =
            (r1 :: rs).countP (succeedsIn gen s.jobs) := by
          apply List.countP_congr
          intro x hx
          have hxne : x ≠ id := fun he => hidrest (he ▸ hx)
          rw [succeedsIn_congr (mapGet_mapSet_ne _ hxne)]
        rw [hcp, hT1, hS1]
        have hcons : ((id :: r1 :: rs).countP (succeedsIn gen s.jobs)) =
            (r1 :: rs).countP (succeedsIn gen s.jobs) +
              (if jobSucceeds gen j = true then 1 else 0) := by
          rw [List.countP_cons, hδ]
        rw [hcons]
        have hnum : (successfulJobsOf s.jobs).length +
            (if jobSucceeds gen j = true then 1 else 0) +
            (r1 :: rs).countP (succeedsIn gen s.jobs) =
            (successfulJobsOf s.jobs).length +
            ((r1 :: rs).countP (succeedsIn gen s.jobs) +
              (if jobSucceeds gen j = true then 1 else 0)) := by
          omega
        have hden : (completedJobsOf s.jobs).length + 1 + (r1 :: rs).length =
            (completedJobsOf s.jobs).length + (id :: r1 :: rs).length := by
          simp [List.length_cons]
          omega
        rw [hnum, hden]
      · intro id2 hm2
        have hne12 : id2 ≠ id := fun he => hidrest (he ▸ hm2)
        rw [hjobs, mapGet_mapSet_ne _ hne12]
        exact hpend id2 (List.mem_cons_of_mem _ hm2)
      · rw [hjobs]
        exact hsafe1

/-- Claim C9: the reported success rate equals the number of retained
terminal records with status completed over the number of all retained
terminal records, times 100 (first conjunct, the recomputation the
metrics update performs on every cycle).  After the loop drains a queue
of freshly submitted jobs (all pending, no prior terminal record, sweep
idle during the run), the final rate is the share of jobs whose
generator calls all succeeded; in particular it is 100 when every
generator call succeeds, and (N-1)/N times 100 when exactly one of the N
jobs fails. -/
theorem C9_success_rate (tf : String → IterTimes) (s : ServiceState)
    (htf : ∀ id, timesSafe (tf id))
    (hproc : s.isProcessing = false)
    (hqne : s.jobQueue ≠ [])
    (hnd : NoDupKeys s.jobs)
    (hqnd : s.jobQueue.Nodup)
    (hpend : ∀ id ∈ s.jobQueue,
      Option.map JobData.status (mapGet s.jobs id) = some JobStatus.pending)
    (hsafe : stampsSafe s.jobs)
    (hterm0 : (completedJobsOf s.jobs).length = 0) :
    (∀ (jobs : JobMap) (m : SystemMetrics) (job : JobData),
      0 < (completedJobsOf jobs).length →
      (updateSystemMetrics jobs m job).successRate =
        ((successfulJobsOf jobs).length : ℚ) / ((completedJobsOf jobs).length : ℚ) * 100) ∧
    (∀ gen : GenOracle,
      (processQueue gen tf s).systemMetrics.successRate =
        ((s.jobQueue.countP (succeedsIn gen s.jobs) : ℚ) / (s.jobQueue.length : ℚ)) * 100) ∧
    (∀ gen : GenOracle, (∀ id ∈ s.jobQueue, succeedsIn gen s.jobs id = true) →
      (processQueue gen tf s).systemMetrics.successRate = 100) ∧
    (∀ gen : GenOracle,
      s.jobQueue.countP (succeedsIn gen s.jobs) = s.jobQueue.length - 1 →
      (processQueue gen tf s).systemMetrics.successRate =
        ((s.jobQueue.length : ℚ) - 1) / (s.jobQueue.length : ℚ) * 100) := by
  have hlenne : s.jobQueue.length ≠ 0 := by
    intro h0
    exact hqne (List.eq_nil_of_length_eq_zero h0)
  have hA : ∀ (jobs : JobMap) (m : SystemMetrics) (job : JobData),
      0 < (completedJobsOf jobs).length →
      (updateSystemMetrics jobs m job).successRate =
        ((successfulJobsOf jobs).length : ℚ) / ((completedJobsOf jobs).length : ℚ) * 100 := by
    intro jobs m job hpos
    rw [updateSystemMetrics_successRate, if_pos hpos]
  have hB : ∀ gen : GenOracle,
      (processQueue gen tf s).systemMetrics.successRate =
        ((s.jobQueue.countP (succeedsIn gen s.jobs) : ℚ) / (s.jobQueue.length : ℚ)) * 100 := by
    intro gen
    unfold processQueue
    have hguard : (s.isProcessing || s.jobQueue.isEmpty) = false := by
      rw [hproc]
      rcases hq : s.jobQueue with _ | ⟨a, l⟩
      · exact absurd hq hqne
      · rfl
    rw [if_neg (by simp [hguard])]
    have hres := processQueueAux_successRate gen tf htf s.jobQueue
      { s with isProcessing := true } hqne hnd hqnd hpend hsafe
    rw [hres]
    have hS0 : (successfulJobsOf s.jobs).length = 0 := by
      have hle := List.length_filter_le
        (fun j => decide (j.status = JobStatus.completed)) (completedJobsOf s.jobs)
      unfold successfulJobsOf
      omega
    rw [hS0, hterm0]
    norm_num
  refine ⟨hA, hB, ?_, ?_⟩
  · intro gen hall
    rw [hB gen]
    have hcnt : s.jobQueue.countP (succeedsIn gen s.jobs) = s.jobQueue.length :=
      List.countP_eq_length.mpr (fun a ha => hall a ha)
    rw [hcnt]
    have hlen : (s.jobQueue.length : ℚ) ≠ 0 := by
      exact_mod_cast hlenne
    rw [div_self hlen]
    norm_num
  · intro gen hcnt
    rw [hB gen, hcnt]
    have h1 : 1 ≤ s.jobQueue.length := Nat.one_le_iff_ne_zero.mpr hlenne
    rw [Nat.cast_sub h1]
    norm_num

/-- Two-pending-jobs state used by the C9 witness. -/
def stateC9 : ServiceState :=
  { jobs := [(jid1, pendingJob1), (jid2, pendingJob2)]
    jobQueue := [jid1, jid2]
    isProcessing := false
    systemMetrics := initialMetrics }

theorem C9_witness :
    (processQueue genAllOk tf0 stateC9).systemMetrics.successRate = 100 ∧
    (processQueue (genFailFor jid2) tf0 stateC9).systemMetrics.successRate = 50 := by
  have htf : ∀ id, timesSafe (tf0 id) := by
    intro id
    refine ⟨?_, ?_, ?_⟩ <;> norm_num [tf0]
  have hpend : ∀ id ∈ stateC9.jobQueue,
      Option.map JobData.status (mapGet stateC9.jobs id) = some JobStatus.pending := by
    intro id hm
    rcases List.mem_cons.mp hm with rfl | hm2
    · decide
    · have h2 : id = jid2 := List.mem_singleton.mp hm2
      rw [h2]
      decide
  have hsafe : stampsSafe stateC9.jobs := by
    intro p hp t ht
    rcases List.mem_cons.mp hp with rfl | hp2
    · simp [pendingJob1] at ht
    · have h2 : p = (jid2, pendingJob2) := List.mem_singleton.mp hp2
      rw [h2] at ht
      simp [pendingJob2] at ht
  have H := C9_success_rate tf0 stateC9 htf rfl (by decide) (by decide) (by decide)
    hpend hsafe (by decide)
  refine ⟨H.2.2.1 genAllOk ?_, ?_⟩
  · intro id hm
    rcases List.mem_cons.mp hm with rfl | hm2
    · decide
    · have h2 : id = jid2 := List.mem_singleton.mp hm2
      rw [h2]
      decide
  · have h := H.2.2.2 (genFailFor jid2) (by decide)
    rw [h]
    simp [stateC9]
    norm_num

end Acme
